import Mathlib

/-!
Verification of the `CoordinateDrawer` utility (src/main.py).

Modelling conventions:
* Python floats are modelled by rationals (`ℚ`); Python's `int(...)`
  conversion of a float truncates toward zero, modelled by `ratTrunc`;
  Python's `//` on integers is floor division, modelled by `Int.fdiv`.
* Text (file names, calibration lines) is modelled as `List Char`, with
  the Python string operations (`endswith`, `split`, `strip`, `in`)
  given as structural functions so that concrete instances evaluate.
* `float(...)` parsing is a parameter `parseFloat : List Char → Option ℚ`
  (`none` models a `ValueError`); no claim depends on which strings parse.
* Images are a size plus a pixel function `pix x y` (column, row).
  `cv2.circle(img, (x, y), r, color, -1)` is modelled as updating every
  pixel of the closed disk of radius `r` around `(x, y)` to the colour;
  `cv2.resize` is a parameter supplying the resampled pixel content at
  the requested dimensions.
* In-place numpy mutation (relevant to the non-mutation claim) is made
  explicit by a heap of images addressed by index; `draw`'s
  `self.original_image.copy()` allocates a fresh cell and `cv2.circle`
  mutates only that cell.
-/

namespace CoordinateDrawer

/-- Python `int(q)` on a real value: truncation toward zero. -/
def ratTrunc (q : ℚ) : ℤ :=
  if 0 ≤ q then ⌊q⌋ else -⌊-q⌋

/-- A piece of text (Python `str`). -/
abbrev Str := List Char

/-- Python `s.endswith(t)`. -/
def strEndsWith (s suffix : Str) : Bool :=
  suffix.isSuffixOf s

/-- Python `s.split(sep)` for a one-character separator (both separators
in the source, `：` and `,`, are single characters). -/
def splitOnChar (sep : Char) : Str → List Str
  | [] => [[]]
  | c :: rest =>
    match splitOnChar sep rest with
    | [] => [[]]
    | part :: parts =>
      if c = sep then [] :: part :: parts
      else (c :: part) :: parts

/-- Whitespace for Python `s.strip()`. -/
def isSpaceChar (c : Char) : Bool :=
  c = ' ' || c = '\t' || c = '\n' || c = '\r'

/-- Python `s.strip()`. -/
def strTrim (s : Str) : Str :=
  ((s.dropWhile isSpaceChar).reverse.dropWhile isSpaceChar).reverse

/-- Python `needle in haystack` on strings. -/
def containsSeq (needle : Str) : Str → Bool
  | [] => needle.isEmpty
  | c :: rest => needle.isPrefixOf (c :: rest) || containsSeq needle rest

/-- A BGR colour triple (each channel a byte in the source). -/
abbrev Color := ℕ × ℕ × ℕ

/-- A raster image: dimensions plus pixel content, indexed `pix x y`
(column, row), mirroring `image[y][x]` on the numpy array. -/
structure Img where
  width : ℕ
  height : ℕ
  pix : ℕ → ℕ → Color

instance : Inhabited Img := ⟨⟨0, 0, fun _ _ => (0, 0, 0)⟩⟩

/-- The parsed corner points: a list of points in file order
{left-bottom, left-top, right-top, right-bottom}, each point the list
of numeric fields of its line (`longitude, latitude, …`). -/
abbrev CornerPoints := List (List ℚ)

/-- Field access `p[i]` on a parsed point (total model; every claim
only touches indices that exist in its points). -/
def field (p : List ℚ) (i : ℕ) : ℚ := p.getD i 0

/-! Section: `_initialize`: file discovery -/

/-- One iteration of the `for file in os.listdir(...)` loop of
`_initialize`: remember the file as `image_path` when it ends in
`.png`, else — `elif` — as `txt_path` when it ends in `.txt`. -/
def findStep (st : Option Str × Option Str) (file : Str) : Option Str × Option Str :=
  if strEndsWith file ".png".data then (some file, st.2)
  else if strEndsWith file ".txt".data then (st.1, some file)
  else st

/-- The whole discovery loop of `_initialize`, starting from
`image_path = None`, `txt_path = None`. -/
def findInputFiles (files : List Str) : Option Str × Option Str :=
  files.foldl findStep (none, none)

/-- The discovery step of `_initialize`: `raise FileNotFoundError`
(the `MissingInputFile` error kind) when `image_path` or `txt_path`
was never set; otherwise the chosen pair. -/
def discoverInputs (files : List Str) : Except String (Str × Str) :=
  match findInputFiles files with
  | (some imagePath, some txtPath) => .ok (imagePath, txtPath)
  | _ => .error "MissingInputFile"

/-! Section: `_read_corner_points` -/

/-- The marker substring `"经纬度坐标"`. -/
def marker : Str := "经纬度坐标".data

/-- Python `"经纬度坐标" in line`. -/
def markerLine (line : Str) : Bool :=
  containsSeq marker line

/-- Source expression `line.split("：")[-1].strip().split(",")`. -/
def extractFields (line : Str) : List Str :=
  splitOnChar ',' (strTrim ((splitOnChar '：' line).getLastD []))

/-- Apply a fallible function to every element, failing as soon as one
element fails (Python's `list(map(float, ...))`, where a bad field
raises `ValueError`). -/
def parseAll {α β : Type} (f : α → Option β) : List α → Option (List β)
  | [] => some []
  | x :: xs =>
    match f x, parseAll f xs with
    | some y, some ys => some (y :: ys)
    | _, _ => none

/-- Method `_read_corner_points`: collect `list(map(float, ...))` for every
marker line (a failed `float` raises `ValueError`), then require
exactly 4 points (`raise ValueError("需要正好4个角点坐标")`). -/
def readCornerPoints (parseFloat : Str → Option ℚ) (lines : List Str) :
    Except String CornerPoints :=
  match parseAll (fun line => parseAll parseFloat (extractFields line))
      (lines.filter markerLine) with
  | none => .error "InvalidCalibration"
  | some points =>
    if points.length = 4 then .ok points else .error "InvalidCalibration"

/-! Section: Coordinate range and transform -/

/-- Method `_set_coordinate_range`: `lon_range = (left_top[0], right_bottom[0])`,
`lat_range = (left_bottom[1], left_top[1])`. -/
def setCoordinateRange (corners : CornerPoints) : (ℚ × ℚ) × (ℚ × ℚ) :=
  let left_bottom := corners.getD 0 []
  let left_top := corners.getD 1 []
  let right_bottom := corners.getD 3 []
  ((field left_top 0, field right_bottom 0), (field left_bottom 1, field left_top 1))

/-- Method `_convert_to_pixel`:
`x = int((lon - left_top[0]) / (right_bottom[0] - left_top[0]) * width)`,
`y = int((lat - left_top[1]) / (right_bottom[1] - left_top[1]) * height)`. -/
def convertToPixel (corners : CornerPoints) (width height : ℕ) (lon lat : ℚ) : ℤ × ℤ :=
  let left_top := corners.getD 1 []
  let right_bottom := corners.getD 3 []
  let x := ratTrunc ((lon - field left_top 0) / (field right_bottom 0 - field left_top 0) * width)
  let y := ratTrunc ((lat - field left_top 1) / (field right_bottom 1 - field left_top 1) * height)
  (x, y)

/-- The transform as the spec's words state it (floor instead of the
code's truncation toward zero); kept only for comparison with
`convertToPixel`. -/
def convertToPixelFloorSpec (corners : CornerPoints) (width height : ℕ) (lon lat : ℚ) :
    ℤ × ℤ :=
  let left_top := corners.getD 1 []
  let right_bottom := corners.getD 3 []
  (⌊(lon - field left_top 0) / (field right_bottom 0 - field left_top 0) * width⌋,
   ⌊(lat - field left_top 1) / (field right_bottom 1 - field left_top 1) * height⌋)

/-! Section: The mapper object -/

/-- The state a successfully constructed `CoordinateDrawer` holds. -/
structure Mapper where
  original : Img
  cornerPoints : CornerPoints
  lonRange : ℚ × ℚ
  latRange : ℚ × ℚ

/-- Construction (`__init__`/`_initialize`): discovery, `cv2.imread` (modelled by
`imageOf`, `none` for an unreadable image), `_read_corner_points` on the
file's lines (`linesOf`), `_set_coordinate_range`.  Any failure aborts
construction: no `Mapper` is produced. -/
def initDrawer (imageOf : Str → Option Img) (linesOf : Str → List Str)
    (parseFloat : Str → Option ℚ) (files : List Str) : Except String Mapper := do
  let (imagePath, txtPath) ← discoverInputs files
  match imageOf imagePath with
  | none => .error "UnreadableImage"
  | some original =>
    let cornerPoints ← readCornerPoints parseFloat (linesOf txtPath)
    let ranges := setCoordinateRange cornerPoints
    .ok { original := original, cornerPoints := cornerPoints,
          lonRange := ranges.1, latRange := ranges.2 }

/-- The value of `get_coordinate_range`: a mapping with exactly the two
keys `longitude` and `latitude`. -/
structure CoordinateRange where
  longitude : ℚ × ℚ
  latitude : ℚ × ℚ
deriving DecidableEq

/-- Method `get_coordinate_range`: return
`{"longitude": self.lon_range, "latitude": self.lat_range}`. -/
def getCoordinateRange (m : Mapper) : CoordinateRange :=
  { longitude := m.lonRange, latitude := m.latRange }

/-! Section: Drawing -/

/-- Call `cv2.circle(img, (cx, cy), r, color, -1)`: fill the closed disk of
radius `r` centred at `(cx, cy)`. -/
def drawCircle (img : Img) (cx cy : ℤ) (r : ℕ) (color : Color) : Img :=
  { img with pix := fun i j =>
      if ((i : ℤ) - cx) ^ 2 + ((j : ℤ) - cy) ^ 2 ≤ (r : ℤ) ^ 2 then color
      else img.pix i j }

/-- The bounds test of `draw`:
`0 <= x < result_image.shape[1] and 0 <= y < result_image.shape[0]`. -/
def inBounds (img : Img) (p : ℤ × ℤ) : Prop :=
  0 ≤ p.1 ∧ p.1 < (img.width : ℤ) ∧ 0 ≤ p.2 ∧ p.2 < (img.height : ℤ)

instance (img : Img) (p : ℤ × ℤ) : Decidable (inBounds img p) := by
  unfold inBounds; infer_instance

/-- One iteration of the `for lon, lat in coordinates` loop of `draw`:
convert the coordinate, draw the filled circle when in bounds, silently
skip otherwise. -/
def drawStep (corners : CornerPoints) (color : Color) (size : ℕ)
    (result_image : Img) (coord : ℚ × ℚ) : Img :=
  let p := convertToPixel corners result_image.width result_image.height coord.1 coord.2
  if inBounds result_image p then drawCircle result_image p.1 p.2 size color
  else result_image

/-- The whole loop of `draw` acting on the copied image. -/
def drawOnCopy (corners : CornerPoints) (original : Img)
    (coordinates : List (ℚ × ℚ)) (color : Color) (size : ℕ) : Img :=
  coordinates.foldl (drawStep corners color size) original

/-- Method `draw` as seen by the caller: the returned full-resolution annotated
image (the `show` branch only feeds a display and does not affect the
returned value). -/
def draw (m : Mapper) (coordinates : List (ℚ × ℚ)) (color : Color) (size : ℕ) : Img :=
  drawOnCopy m.cornerPoints m.original coordinates color size

/-! Section: Heap model of `draw` (aliasing made explicit) -/

/-- One iteration of `draw`'s loop on an explicit heap: `cv2.circle`
mutates the cell `newRef` (the freshly allocated copy) in place. -/
def heapStep (corners : CornerPoints) (color : Color) (size : ℕ) (newRef : ℕ)
    (h : List Img) (coord : ℚ × ℚ) : List Img :=
  let img := h.getD newRef default
  let p := convertToPixel corners img.width img.height coord.1 coord.2
  if inBounds img p then h.set newRef (drawCircle img p.1 p.2 size color)
  else h

/-- One `draw` call on an explicit heap: `result_image =
self.original_image.copy()` allocates a fresh cell holding a copy of the
original, every `cv2.circle` mutates that cell in place, and the index
of the new cell is returned. -/
def drawOnHeap (corners : CornerPoints) (heap : List Img) (originalRef : ℕ)
    (coordinates : List (ℚ × ℚ)) (color : Color) (size : ℕ) : List Img × ℕ :=
  let newRef := heap.length
  let afterCopy := heap ++ [heap.getD originalRef default]
  (coordinates.foldl (heapStep corners color size newRef) afterCopy, newRef)

/-- A sequence of `draw` calls (coordinates, colour, size each time) on
the same drawer, with the heap threaded through. -/
def drawCallsOnHeap (corners : CornerPoints) (originalRef : ℕ)
    (calls : List (List (ℚ × ℚ) × Color × ℕ)) (heap : List Img) : List Img :=
  calls.foldl
    (fun h call => (drawOnHeap corners h originalRef call.1 call.2.1 call.2.2).1)
    heap

/-! Section: `_resize_with_padding` -/

/-- Source expression `scale = min(target_width / img_width, target_height / img_height)`. -/
def rwpScale (displaySize : ℕ × ℕ) (image : Img) : ℚ :=
  min ((displaySize.1 : ℚ) / image.width) ((displaySize.2 : ℚ) / image.height)

/-- Source expression `new_width = int(img_width * scale)`. -/
def rwpNewWidth (displaySize : ℕ × ℕ) (image : Img) : ℤ :=
  ratTrunc (image.width * rwpScale displaySize image)

/-- Source expression `new_height = int(img_height * scale)`. -/
def rwpNewHeight (displaySize : ℕ × ℕ) (image : Img) : ℤ :=
  ratTrunc (image.height * rwpScale displaySize image)

/-- Source expression `x_offset = (target_width - new_width) // 2`. -/
def rwpXOffset (displaySize : ℕ × ℕ) (image : Img) : ℤ :=
  Int.fdiv ((displaySize.1 : ℤ) - rwpNewWidth displaySize image) 2

/-- Source expression `y_offset = (target_height - new_height) // 2`. -/
def rwpYOffset (displaySize : ℕ × ℕ) (image : Img) : ℤ :=
  Int.fdiv ((displaySize.2 : ℤ) - rwpNewHeight displaySize image) 2

/-- Method `_resize_with_padding`: gray `np.ones(...) * 128` canvas of exactly
the target size, `cv2.resize`d image (its pixel content supplied by the
`resample` parameter at the computed new dimensions) pasted at the
computed offsets. -/
def resizeWithPadding (resample : Img → ℕ → ℕ → ℕ → ℕ → Color)
    (displaySize : ℕ × ℕ) (image : Img) : Img :=
  let new_width := rwpNewWidth displaySize image
  let new_height := rwpNewHeight displaySize image
  let x_offset := rwpXOffset displaySize image
  let y_offset := rwpYOffset displaySize image
  { width := displaySize.1
    height := displaySize.2
    pix := fun x y =>
      if x_offset ≤ (x : ℤ) ∧ (x : ℤ) < x_offset + new_width ∧
         y_offset ≤ (y : ℤ) ∧ (y : ℤ) < y_offset + new_height then
        resample image new_width.toNat new_height.toNat
          ((x : ℤ) - x_offset).toNat ((y : ℤ) - y_offset).toNat
      else (128, 128, 128) }

/-! Section: Concrete data for the spec's worked scenario -/

/-- The demo calibration of the spec's concrete scenario:
left-bottom `(117.60, 35.99)`, left-top `(117.60, 36.01)`,
right-top `(117.65, 36.01)`, right-bottom `(117.65, 35.99)`. -/
def demoCorners : CornerPoints :=
  [[11760/100, 3599/100], [11760/100, 3601/100], [11765/100, 3601/100], [11765/100, 3599/100]]

/-- A 4000×3000 all-black demo image. -/
def demoImg : Img :=
  { width := 4000, height := 3000, pix := fun _ _ => (0, 0, 0) }

/-! Section: Helper lemmas -/

theorem ratTrunc_of_nonneg {q : ℚ} (h : 0 ≤ q) : ratTrunc q = ⌊q⌋ := by
  simp [ratTrunc, h]

theorem ratTrunc_natCast (n : ℕ) : ratTrunc (n : ℚ) = (n : ℤ) := by
  rw [ratTrunc_of_nonneg (by positivity)]
  exact Int.floor_natCast n

theorem ratTrunc_zero : ratTrunc 0 = 0 := by
  simp [ratTrunc]

/-! Section: C1: the transform truncates toward zero, which is floor only on
nonnegative scaled values -/

/-- C1 (counterexample): with the demo calibration, the longitude
`117.59999375` scales to `-1/2·4000/4000`… precisely, the scaled value
is `-1/2`, which the code's `int(...)` truncates to `0` while the
claimed floor formula gives `-1`; the transform therefore does not
agree with the floor formula at this input. -/
theorem convertToPixel_floor_counterexample :
    convertToPixel demoCorners 4000 3000 (11759999375/100000000) 36 = (0, 1500) ∧
    convertToPixelFloorSpec demoCorners 4000 3000 (11759999375/100000000) 36 = (-1, 1500) ∧
    convertToPixel demoCorners 4000 3000 (11759999375/100000000) 36 ≠
      convertToPixelFloorSpec demoCorners 4000 3000 (11759999375/100000000) 36 := by
  refine ⟨?_, ?_, ?_⟩ <;>
    · simp only [convertToPixel, convertToPixelFloorSpec, demoCorners, field, ratTrunc,
        List.getD]
      norm_num

/-- C1 (amended): whenever the two interpolation ratios are
nonnegative, the transform equals the spec's floor formula; and on the
spec's concrete 4000×3000 scenario the input `(117.625, 36.00)` maps to
`(2000, 1500)`. -/
theorem convertToPixel_eq_floor_of_nonneg (corners : CornerPoints) (width height : ℕ)
    (lon lat : ℚ)
    (hx : 0 ≤ (lon - field (corners.getD 1 []) 0) /
      (field (corners.getD 3 []) 0 - field (corners.getD 1 []) 0))
    (hy : 0 ≤ (lat - field (corners.getD 1 []) 1) /
      (field (corners.getD 3 []) 1 - field (corners.getD 1 []) 1)) :
    convertToPixel corners width height lon lat =
      convertToPixelFloorSpec corners width height lon lat ∧
    convertToPixel demoCorners 4000 3000 (117625/1000) 36 = (2000, 1500) := by
  constructor
  · simp only [convertToPixel, convertToPixelFloorSpec]
    rw [ratTrunc_of_nonneg (mul_nonneg hx (by positivity)),
      ratTrunc_of_nonneg (mul_nonneg hy (by positivity))]
  · simp only [convertToPixel, demoCorners, field, ratTrunc, List.getD]
    norm_num

/-- Witness for C1's amended theorem at the spec's concrete scenario. -/
theorem convertToPixel_eq_floor_of_nonneg_witness :
    convertToPixel demoCorners 4000 3000 (117625/1000) 36 =
      convertToPixelFloorSpec demoCorners 4000 3000 (117625/1000) 36 :=
  (convertToPixel_eq_floor_of_nonneg demoCorners 4000 3000 (117625/1000) 36
    (by simp only [demoCorners, field, List.getD]; norm_num)
    (by simp only [demoCorners, field, List.getD]; norm_num)).1

/-! Section: C2: the calibration corners map to the image corners -/

/-- C2: with distinct corner longitudes and latitudes, the transform
sends the left-top corner's coordinates to `(0, 0)` and the right-bottom
corner's coordinates to `(width, height)`. -/
theorem convertToPixel_corners (lb lt rt rb : List ℚ) (width height : ℕ)
    (hlon : field lt 0 ≠ field rb 0) (hlat : field lt 1 ≠ field rb 1) :
    convertToPixel [lb, lt, rt, rb] width height (field lt 0) (field lt 1) = (0, 0) ∧
    convertToPixel [lb, lt, rt, rb] width height (field rb 0) (field rb 1) =
      ((width : ℤ), (height : ℤ)) := by
  constructor
  · simp only [convertToPixel, List.getD, List.get?_cons_succ, List.get?_cons_zero,
      Option.getD_some]
    simp [ratTrunc_zero]
  · simp only [convertToPixel, List.getD, List.get?_cons_succ, List.get?_cons_zero,
      Option.getD_some]
    rw [div_self (sub_ne_zero.mpr (Ne.symm hlon)), div_self (sub_ne_zero.mpr (Ne.symm hlat))]
    simp [ratTrunc_natCast]

/-- Witness for C2 at the demo calibration. -/
theorem convertToPixel_corners_witness :
    convertToPixel [[11760/100, 3599/100], [11760/100, 3601/100],
        [11765/100, 3601/100], [11765/100, 3599/100]] 4000 3000
      (field [11760/100, 3601/100] 0) (field [11760/100, 3601/100] 1) = (0, 0) ∧
    convertToPixel [[11760/100, 3599/100], [11760/100, 3601/100],
        [11765/100, 3601/100], [11765/100, 3599/100]] 4000 3000
      (field [11765/100, 3599/100] 0) (field [11765/100, 3599/100] 1) = (4000, 3000) :=
  convertToPixel_corners [11760/100, 3599/100] [11760/100, 3601/100]
    [11765/100, 3601/100] [11765/100, 3599/100] 4000 3000
    (by simp only [field, List.getD, List.getElem?_cons_zero]; norm_num)
    (by simp only [field, List.getD, List.getElem?_cons_succ, List.getElem?_cons_zero]; norm_num)

/-! Section: `parseAll` helpers -/

theorem parseAll_eq_none_iff {α β : Type} (f : α → Option β) :
    ∀ xs : List α, parseAll f xs = none ↔ ∃ x ∈ xs, f x = none := by
  intro xs
  induction xs with
  | nil => simp [parseAll]
  | cons x xs ih =>
    simp only [parseAll]
    cases hfx : f x with
    | none => simp [hfx]
    | some y =>
      cases hxs : parseAll f xs with
      | none =>
        obtain ⟨z, hz, hznone⟩ := ih.mp hxs
        exact iff_of_true rfl ⟨z, List.mem_cons_of_mem x hz, hznone⟩
      | some ys =>
        constructor
        · intro h; cases h
        · rintro ⟨z, hz, hznone⟩
          rcases List.mem_cons.mp hz with rfl | hz
          · rw [hfx] at hznone; cases hznone
          · rw [ih.mpr ⟨z, hz, hznone⟩] at hxs; cases hxs

theorem parseAll_length {α β : Type} (f : α → Option β) :
    ∀ (xs : List α) (ys : List β), parseAll f xs = some ys → ys.length = xs.length := by
  intro xs
  induction xs with
  | nil =>
    intro ys h
    simp only [parseAll, Option.some.injEq] at h
    simp [← h]
  | cons x xs ih =>
    intro ys h
    simp only [parseAll] at h
    cases hfx : f x with
    | none => rw [hfx] at h; cases h
    | some y =>
      cases hxs : parseAll f xs with
      | none => rw [hfx, hxs] at h; cases h
      | some zs =>
        rw [hfx, hxs] at h
        cases h
        simp [ih zs hxs]

/-! Section: C4: calibration parsing fails exactly on a bad count or a bad field -/

/-- C4: `_read_corner_points` fails (with the `InvalidCalibration`
error) exactly when the number of marker lines is not 4 or some
comma-separated field of a marker line does not parse as a float;
equivalently, it succeeds on exactly 4 well-formed marker lines.  The
construction is modelled in `Except`, so on failure no mapper value
exists. -/
theorem readCornerPoints_error_iff (parseFloat : Str → Option ℚ) (lines : List Str) :
    (∃ e, readCornerPoints parseFloat lines = .error e) ↔
      ((lines.filter markerLine).length ≠ 4 ∨
        ∃ l ∈ lines.filter markerLine, ∃ s ∈ extractFields l, parseFloat s = none) := by
  unfold readCornerPoints
  cases hm : parseAll (fun line => parseAll parseFloat (extractFields line))
      (lines.filter markerLine) with
  | none =>
    rw [parseAll_eq_none_iff] at hm
    obtain ⟨l, hl, hnone⟩ := hm
    rw [parseAll_eq_none_iff] at hnone
    obtain ⟨s, hs, hsnone⟩ := hnone
    exact iff_of_true ⟨"InvalidCalibration", rfl⟩ (Or.inr ⟨l, hl, s, hs, hsnone⟩)
  | some points =>
    dsimp only
    have hlen := parseAll_length _ _ _ hm
    by_cases h4 : points.length = 4
    · rw [if_pos h4]
      constructor
      · rintro ⟨e, he⟩; cases he
      · rintro (hc | ⟨l, hl, s, hs, hsnone⟩)
        · exact absurd (hlen ▸ h4) hc
        · have hline : parseAll parseFloat (extractFields l) = none :=
            (parseAll_eq_none_iff _ _).mpr ⟨s, hs, hsnone⟩
          have hall : parseAll (fun line => parseAll parseFloat (extractFields line))
              (lines.filter markerLine) = none :=
            (parseAll_eq_none_iff _ _).mpr ⟨l, hl, hline⟩
          rw [hm] at hall; cases hall
    · rw [if_neg h4]
      exact iff_of_true ⟨"InvalidCalibration", rfl⟩ (Or.inl fun hc => h4 (by rw [hlen, hc]))

/-- Witness for C4: a file with no marker line fails. -/
theorem readCornerPoints_error_iff_witness :
    ∃ e, readCornerPoints (fun _ => some 0) ([] : List Str) = .error e :=
  (readCornerPoints_error_iff (fun _ => some 0) []).mpr (Or.inl (by decide))

/-! Section: C10: extra comma-separated fields are parsed and ignored -/

/-- Demo calibration file contents: four marker lines, each with a
third numeric field, plus one unrelated line. -/
def calibLinesDemo : List Str :=
  ["左下角经纬度坐标：117.60,35.99,1".data,
   "左上角经纬度坐标：117.60,36.01,2".data,
   "右上角经纬度坐标：117.65,36.01,3".data,
   "右下角经纬度坐标：117.65,35.99,4".data,
   "图像尺寸：4000,3000".data]

/-- C10: a calibration file whose 4 marker lines all have more than two
parseable fields constructs successfully, and both the coordinate range
and the transform depend only on each point's first two fields. -/
theorem extraFields_ignored (parseFloat : Str → Option ℚ) (lines : List Str)
    (hcount : (lines.filter markerLine).length = 4)
    (hfields : ∀ l ∈ lines.filter markerLine,
      2 < (extractFields l).length ∧ ∀ s ∈ extractFields l, (parseFloat s).isSome = true) :
    (∃ points, readCornerPoints parseFloat lines = .ok points) ∧
    ∀ points points' : CornerPoints,
      (∀ i, field (points.getD i []) 0 = field (points'.getD i []) 0 ∧
        field (points.getD i []) 1 = field (points'.getD i []) 1) →
      setCoordinateRange points = setCoordinateRange points' ∧
      ∀ (width height : ℕ) (lon lat : ℚ),
        convertToPixel points width height lon lat =
          convertToPixel points' width height lon lat := by
  constructor
  · cases hm : parseAll (fun line => parseAll parseFloat (extractFields line))
        (lines.filter markerLine) with
    | none =>
      obtain ⟨l, hl, hnone⟩ := (parseAll_eq_none_iff _ _).mp hm
      obtain ⟨s, hs, hsnone⟩ := (parseAll_eq_none_iff _ _).mp hnone
      have := (hfields l hl).2 s hs
      rw [hsnone] at this
      cases this
    | some points =>
      refine ⟨points, ?_⟩
      unfold readCornerPoints
      rw [hm]
      have hlen := parseAll_length _ _ _ hm
      dsimp only
      rw [if_pos (by rw [hlen, hcount])]
  · intro points points' hagree
    constructor
    · simp only [setCoordinateRange]
      rw [(hagree 0).2, (hagree 1).1, (hagree 1).2, (hagree 3).1]
    · intro width height lon lat
      simp only [convertToPixel]
      rw [(hagree 1).1, (hagree 1).2, (hagree 3).1, (hagree 3).2]

/-- Witness for C10 on the demo calibration file (degenerate parser
accepting every field). -/
theorem extraFields_ignored_witness :
    ∃ points, readCornerPoints (fun _ => some 0) calibLinesDemo = .ok points :=
  (extraFields_ignored (fun _ => some 0) calibLinesDemo (by decide) (by decide)).1

/-! Section: C9: the coordinate-range accessor -/

/-- C9: every successfully constructed mapper's
`get_coordinate_range()` is the two-field mapping whose `longitude`
is `(left_top[0], right_bottom[0])` and whose `latitude` is
`(left_bottom[1], left_top[1])`, taken from the corner points stored at
initialization (the accessor recomputes nothing). -/
theorem getCoordinateRange_spec (imageOf : Str → Option Img) (linesOf : Str → List Str)
    (parseFloat : Str → Option ℚ) (files : List Str) (m : Mapper)
    (h : initDrawer imageOf linesOf parseFloat files = .ok m) :
    getCoordinateRange m =
      { longitude := (field (m.cornerPoints.getD 1 []) 0,
                      field (m.cornerPoints.getD 3 []) 0),
        latitude := (field (m.cornerPoints.getD 0 []) 1,
                     field (m.cornerPoints.getD 1 []) 1) } := by
  unfold initDrawer at h
  cases hd : discoverInputs files with
  | error e => rw [hd] at h; simp [Bind.bind, Except.bind] at h
  | ok pair =>
    rw [hd] at h
    simp only [Bind.bind, Except.bind] at h
    cases hi : imageOf pair.1 with
    | none =>
      rw [hi] at h
      simp at h
    | some original =>
      rw [hi] at h
      cases hr : readCornerPoints parseFloat (linesOf pair.2) with
      | error e => rw [hr] at h; simp [Bind.bind, Except.bind] at h
      | ok pts =>
        rw [hr] at h
        simp only [Bind.bind, Except.bind, Except.ok.injEq] at h
        subst h
        simp [getCoordinateRange, setCoordinateRange]

/-- Witness data for C9: a fixed directory listing, image loader, line
reader and parser. -/
def demoFiles : List Str := ["map.png".data, "校准.txt".data]

/-- Witness data for C9: the mapper the demo construction produces. -/
def demoMapper : Mapper :=
  { original := demoImg
    cornerPoints := [[0, 0, 0], [0, 0, 0], [0, 0, 0], [0, 0, 0]]
    lonRange := (0, 0)
    latRange := (0, 0) }

/-- Witness for C9: the concrete demo construction run. -/
theorem getCoordinateRange_spec_witness :
    getCoordinateRange demoMapper =
      { longitude := (field (demoMapper.cornerPoints.getD 1 []) 0,
                      field (demoMapper.cornerPoints.getD 3 []) 0),
        latitude := (field (demoMapper.cornerPoints.getD 0 []) 1,
                     field (demoMapper.cornerPoints.getD 1 []) 1) } :=
  getCoordinateRange_spec (fun _ => some demoImg) (fun _ => calibLinesDemo)
    (fun _ => some 0) demoFiles demoMapper rfl

/-! Section: C3: file discovery fails only when an extension is absent -/

/-- No file name ends in both `.png` and `.txt`. -/
theorem not_endsWith_png_and_txt (f : Str) (hp : strEndsWith f ".png".data = true)
    (ht : strEndsWith f ".txt".data = true) : False := by
  have hp' := List.isSuffixOf_iff_suffix.mp hp
  have ht' := List.isSuffixOf_iff_suffix.mp ht
  obtain ⟨t₁, rfl⟩ := hp'
  obtain ⟨t₂, h2⟩ := ht'
  have : ".txt".data = ".png".data := (List.append_inj' h2 rfl).2
  cases this

theorem foldl_findStep_fst_none (files : List Str) :
    ∀ st : Option Str × Option Str,
      (files.foldl findStep st).1 = none ↔
        st.1 = none ∧ ∀ f ∈ files, strEndsWith f ".png".data = false := by
  induction files with
  | nil => intro st; simp
  | cons f files ih =>
    intro st
    rw [List.foldl_cons, ih, List.forall_mem_cons, ← and_assoc]
    have hstep : (findStep st f).1 = none ↔
        st.1 = none ∧ strEndsWith f ".png".data = false := by
      unfold findStep
      by_cases hp : strEndsWith f ".png".data = true
      · simp [hp]
      · have hp' : strEndsWith f ".png".data = false := by simpa using hp
        rw [if_neg hp]
        by_cases ht : strEndsWith f ".txt".data = true
        · simp [ht, hp']
        · simp [if_neg ht, hp']
    rw [hstep]

theorem foldl_findStep_snd_none (files : List Str) :
    ∀ st : Option Str × Option Str,
      (files.foldl findStep st).2 = none ↔
        st.2 = none ∧ ∀ f ∈ files, strEndsWith f ".txt".data = false := by
  induction files with
  | nil => intro st; simp
  | cons f files ih =>
    intro st
    rw [List.foldl_cons, ih, List.forall_mem_cons, ← and_assoc]
    have hstep : (findStep st f).2 = none ↔
        st.2 = none ∧ strEndsWith f ".txt".data = false := by
      unfold findStep
      by_cases hp : strEndsWith f ".png".data = true
      · have ht : strEndsWith f ".txt".data = false := by
          cases hAll : strEndsWith f ".txt".data with
          | false => rfl
          | true => exact absurd (not_endsWith_png_and_txt f hp hAll) not_false
        simp [hp, ht]
      · rw [if_neg hp]
        by_cases ht : strEndsWith f ".txt".data = true
        · simp [ht]
        · have ht' : strEndsWith f ".txt".data = false := by simpa using ht
          simp [if_neg ht, ht']
    rw [hstep]

/-- C3 (counterexample): a directory with two `.png` files (and one
`.txt`) does not fail — discovery succeeds, keeping the last `.png`
seen. -/
theorem discoverInputs_two_png_counterexample :
    discoverInputs ["a.png".data, "b.png".data, "c.txt".data] =
      .ok ("b.png".data, "c.txt".data) := by rfl

/-- C3 (amended): initialization fails with the `MissingInputFile`
error exactly when the directory has no `.png` file or no `.txt` file;
extra candidates of either extension are not an error (the last one
scanned wins). -/
theorem discoverInputs_error_iff (files : List Str) :
    discoverInputs files = .error "MissingInputFile" ↔
      ((∀ f ∈ files, strEndsWith f ".png".data = false) ∨
       (∀ f ∈ files, strEndsWith f ".txt".data = false)) := by
  have hfst := foldl_findStep_fst_none files (none, none)
  have hsnd := foldl_findStep_snd_none files (none, none)
  simp only [true_and] at hfst hsnd
  unfold discoverInputs findInputFiles
  cases hsplit : files.foldl findStep (none, none) with
  | mk a b =>
    rw [hsplit] at hfst hsnd
    simp only at hfst hsnd
    cases a with
    | none => exact iff_of_true rfl (Or.inl (hfst.mp rfl))
    | some a =>
      cases b with
      | none => exact iff_of_true rfl (Or.inr (hsnd.mp rfl))
      | some b =>
        constructor
        · intro h; cases h
        · rintro (h | h)
          · cases hfst.mpr h
          · cases hsnd.mpr h

/-- Witness for C3's amended theorem: the empty directory fails. -/
theorem discoverInputs_error_iff_witness :
    discoverInputs ([] : List Str) = .error "MissingInputFile" :=
  (discoverInputs_error_iff []).mpr (Or.inl (by simp))

/-! Section: C5: in-bounds coordinates get a marker, out-of-bounds ones are
silently skipped -/

theorem drawStep_width (corners : CornerPoints) (color : Color) (size : ℕ)
    (img : Img) (c : ℚ × ℚ) :
    (drawStep corners color size img c).width = img.width ∧
    (drawStep corners color size img c).height = img.height := by
  simp only [drawStep, drawCircle]
  split <;> exact ⟨rfl, rfl⟩

theorem foldl_drawStep_width (corners : CornerPoints) (color : Color) (size : ℕ) :
    ∀ (cs : List (ℚ × ℚ)) (img : Img),
      (cs.foldl (drawStep corners color size) img).width = img.width ∧
      (cs.foldl (drawStep corners color size) img).height = img.height := by
  intro cs
  induction cs with
  | nil => intro img; exact ⟨rfl, rfl⟩
  | cons c cs ih =>
    intro img
    rw [List.foldl_cons]
    refine ⟨?_, ?_⟩
    · rw [(ih _).1, (drawStep_width corners color size img c).1]
    · rw [(ih _).2, (drawStep_width corners color size img c).2]

theorem drawCircle_disk (img : Img) (cx cy : ℤ) (r : ℕ) (color : Color) (a b : ℕ)
    (h : ((a : ℤ) - cx) ^ 2 + ((b : ℤ) - cy) ^ 2 ≤ (r : ℤ) ^ 2) :
    (drawCircle img cx cy r color).pix a b = color := by
  simp only [drawCircle]
  rw [if_pos h]

theorem inBounds_congr {img img' : Img} (hw : img.width = img'.width)
    (hh : img.height = img'.height) (p : ℤ × ℤ) :
    inBounds img p ↔ inBounds img' p := by
  unfold inBounds
  rw [hw, hh]

theorem drawCircle_keeps_color (img : Img) (cx cy : ℤ) (r : ℕ) (color : Color)
    (a b : ℕ) (h : img.pix a b = color) :
    (drawCircle img cx cy r color).pix a b = color := by
  simp only [drawCircle]
  split <;> simp [h]

theorem foldl_drawStep_keeps_color (corners : CornerPoints) (color : Color) (size : ℕ) :
    ∀ (cs : List (ℚ × ℚ)) (img : Img) (a b : ℕ),
      img.pix a b = color →
      (cs.foldl (drawStep corners color size) img).pix a b = color := by
  intro cs
  induction cs with
  | nil => intro img a b h; exact h
  | cons c cs ih =>
    intro img a b h
    rw [List.foldl_cons]
    refine ih _ a b ?_
    simp only [drawStep]
    split
    · exact drawCircle_keeps_color _ _ _ _ _ a b h
    · exact h

theorem foldl_drawStep_marks (corners : CornerPoints) (color : Color) (size : ℕ) :
    ∀ (cs : List (ℚ × ℚ)) (img : Img) (lon lat : ℚ), (lon, lat) ∈ cs →
      ∀ x y : ℤ, (x, y) = convertToPixel corners img.width img.height lon lat →
        inBounds img (x, y) →
        ∀ a b : ℕ, ((a : ℤ) - x) ^ 2 + ((b : ℤ) - y) ^ 2 ≤ (size : ℤ) ^ 2 →
          (cs.foldl (drawStep corners color size) img).pix a b = color := by
  intro cs
  induction cs with
  | nil => intro img lon lat h; cases h
  | cons c cs ih =>
    intro img lon lat hmem x y hxy hb a b hdisk
    rw [List.foldl_cons]
    rcases List.mem_cons.mp hmem with rfl | hmem
    · have hstep : drawStep corners color size img (lon, lat) =
          drawCircle img x y size color := by
        simp only [drawStep, ← hxy]
        rw [if_pos hb]
      rw [hstep]
      exact foldl_drawStep_keeps_color corners color size cs _ a b
        (drawCircle_disk img x y size color a b hdisk)
    · refine ih (drawStep corners color size img c) lon lat hmem x y ?_ ?_ a b hdisk
      · rw [(drawStep_width corners color size img c).1,
          (drawStep_width corners color size img c).2]
        exact hxy
      · obtain ⟨h1, h2, h3, h4⟩ := hb
        exact ⟨h1, (drawStep_width corners color size img c).1.symm ▸ h2, h3,
          (drawStep_width corners color size img c).2.symm ▸ h4⟩

theorem foldl_drawStep_filter (corners : CornerPoints) (color : Color) (size : ℕ)
    (orig : Img) :
    ∀ (cs : List (ℚ × ℚ)) (img : Img),
      img.width = orig.width → img.height = orig.height →
      cs.foldl (drawStep corners color size) img =
        (cs.filter fun c => decide (inBounds orig
            (convertToPixel corners orig.width orig.height c.1 c.2))).foldl
          (drawStep corners color size) img := by
  intro cs
  induction cs with
  | nil => intro img hw hh; rfl
  | cons c cs ih =>
    intro img hw hh
    rw [List.foldl_cons, List.filter_cons]
    by_cases hp : inBounds orig (convertToPixel corners orig.width orig.height c.1 c.2)
    · rw [if_pos (by simpa using hp), List.foldl_cons]
      exact ih (drawStep corners color size img c)
        ((drawStep_width corners color size img c).1.trans hw)
        ((drawStep_width corners color size img c).2.trans hh)
    · have hstep : drawStep corners color size img c = img := by
        simp only [drawStep]
        rw [if_neg]
        rw [hw, hh]
        exact fun hc => hp ((inBounds_congr hw hh _).mp hc)
      rw [if_neg (by simpa using hp), hstep]
      exact ih img hw hh

/-- C5: a coordinate whose transformed pixel lies in
`[0, width) × [0, height)` gets the filled circular marker of the given
radius and colour drawn at that pixel of the returned copy (every pixel
within the radius of the centre carries the colour), and — for every
sequence, mixed or not — out-of-bounds coordinates are skipped without
drawing and without error: the result equals drawing only the
in-bounds coordinates of the sequence. -/
theorem draw_marks_in_bounds_skips_out_of_bounds (corners : CornerPoints) (original : Img)
    (coordinates : List (ℚ × ℚ)) (color : Color) (size : ℕ) :
    (∀ lon lat : ℚ, (lon, lat) ∈ coordinates →
      ∀ x y : ℤ, (x, y) = convertToPixel corners original.width original.height lon lat →
        inBounds original (x, y) →
        ∀ a b : ℕ, ((a : ℤ) - x) ^ 2 + ((b : ℤ) - y) ^ 2 ≤ (size : ℤ) ^ 2 →
          (drawOnCopy corners original coordinates color size).pix a b = color) ∧
    drawOnCopy corners original coordinates color size =
      drawOnCopy corners original
        (coordinates.filter fun c => decide (inBounds original
          (convertToPixel corners original.width original.height c.1 c.2)))
        color size := by
  constructor
  · intro lon lat hmem x y hxy hb a b hdisk
    exact foldl_drawStep_marks corners color size coordinates original lon lat hmem
      x y hxy hb a b hdisk
  · exact foldl_drawStep_filter corners color size original coordinates original rfl rfl

/-- Witness for C5 on the spec's concrete scenario: the marker colour
appears at the centre pixel `(2000, 1500)` (a point of the disk). -/
theorem draw_marks_witness :
    (drawOnCopy demoCorners demoImg [(117625/1000, 36)] (0, 0, 255) 5).pix 2000 1500 =
      (0, 0, 255) := by
  have h := (draw_marks_in_bounds_skips_out_of_bounds demoCorners demoImg
      [(117625/1000, 36)] (0, 0, 255) 5).1 (117625/1000) 36 (by simp) 2000 1500
      (by simp only [demoImg, convertToPixel, demoCorners, field, ratTrunc, List.getD]
          norm_num)
      (by constructor <;> [decide; constructor <;> [decide; exact ⟨by decide, by decide⟩]])
      2000 1500 (by norm_num)
  exact h

/-! Section: C6: `draw` never mutates the stored original image -/

theorem getD_set_ne (l : List Img) (i j : ℕ) (a : Img) (h : i ≠ j) :
    (l.set i a).getD j default = l.getD j default := by
  rw [List.getD_eq_getElem?_getD, List.getD_eq_getElem?_getD, List.getElem?_set_ne h]

theorem foldl_heapStep_length (corners : CornerPoints) (color : Color) (size newRef : ℕ) :
    ∀ (cs : List (ℚ × ℚ)) (h : List Img),
      (cs.foldl (heapStep corners color size newRef) h).length = h.length := by
  intro cs
  induction cs with
  | nil => intro h; rfl
  | cons c cs ih =>
    intro h
    rw [List.foldl_cons, ih]
    simp only [heapStep]
    split <;> simp

theorem foldl_heapStep_getD_ne (corners : CornerPoints) (color : Color)
    (size newRef j : ℕ) (hne : newRef ≠ j) :
    ∀ (cs : List (ℚ × ℚ)) (h : List Img),
      (cs.foldl (heapStep corners color size newRef) h).getD j default =
        h.getD j default := by
  intro cs
  induction cs with
  | nil => intro h; rfl
  | cons c cs ih =>
    intro h
    rw [List.foldl_cons, ih]
    simp only [heapStep]
    split
    · exact getD_set_ne _ _ _ _ hne
    · rfl

theorem drawOnHeap_fst_length (corners : CornerPoints) (heap : List Img)
    (originalRef : ℕ) (coordinates : List (ℚ × ℚ)) (color : Color) (size : ℕ) :
    (drawOnHeap corners heap originalRef coordinates color size).1.length =
      heap.length + 1 := by
  unfold drawOnHeap
  dsimp only
  rw [foldl_heapStep_length]
  simp

theorem drawOnHeap_preserves (corners : CornerPoints) (heap : List Img)
    (originalRef : ℕ) (coordinates : List (ℚ × ℚ)) (color : Color) (size : ℕ)
    (j : ℕ) (hj : j < heap.length) :
    (drawOnHeap corners heap originalRef coordinates color size).1.getD j default =
      heap.getD j default := by
  unfold drawOnHeap
  dsimp only
  rw [foldl_heapStep_getD_ne corners color size heap.length j (Nat.ne_of_gt hj)]
  exact List.getD_append _ _ _ _ hj

/-- C6: across any sequence of `draw` calls, the heap cell holding the
stored original image is untouched (every `cv2.circle` mutates only the
freshly allocated copy), and each call returns the fresh cell — never
the original. -/
theorem draw_preserves_original (corners : CornerPoints) (heap : List Img)
    (originalRef : ℕ) (calls : List (List (ℚ × ℚ) × Color × ℕ))
    (h : originalRef < heap.length) :
    (drawCallsOnHeap corners originalRef calls heap).getD originalRef default =
      heap.getD originalRef default ∧
    ∀ (coordinates : List (ℚ × ℚ)) (color : Color) (size : ℕ),
      (drawOnHeap corners heap originalRef coordinates color size).2 = heap.length ∧
      (drawOnHeap corners heap originalRef coordinates color size).2 ≠ originalRef := by
  constructor
  · induction calls generalizing heap with
    | nil => rfl
    | cons call calls ih =>
      unfold drawCallsOnHeap
      rw [List.foldl_cons]
      have h' : originalRef < ((drawOnHeap corners heap originalRef
          call.1 call.2.1 call.2.2).1).length := by
        rw [drawOnHeap_fst_length]
        exact Nat.lt_succ_of_lt h
      have hpres := drawOnHeap_preserves corners heap originalRef
        call.1 call.2.1 call.2.2 originalRef h
      have := ih _ h'
      unfold drawCallsOnHeap at this
      rw [this, hpres]
  · intro coordinates color size
    exact ⟨rfl, Nat.ne_of_gt h⟩

/-- Witness for C6: one concrete draw call leaves the original image
cell of a one-image heap unchanged. -/
theorem draw_preserves_original_witness :
    (drawCallsOnHeap demoCorners 0 [([(117625/1000, 36)], (0, 0, 255), 5)]
        [demoImg]).getD 0 default = [demoImg].getD 0 default :=
  (draw_preserves_original demoCorners [demoImg] 0
    [([(117625/1000, 36)], (0, 0, 255), 5)] (by decide)).1

/-! Section: C7: display scaling -/

theorem rwpScale_nonneg (displaySize : ℕ × ℕ) (image : Img) :
    0 ≤ rwpScale displaySize image := by
  unfold rwpScale
  exact le_min (by positivity) (by positivity)

theorem rwpNewWidth_eq_floor (displaySize : ℕ × ℕ) (image : Img) :
    rwpNewWidth displaySize image =
      ⌊(image.width : ℚ) * rwpScale displaySize image⌋ := by
  unfold rwpNewWidth
  exact ratTrunc_of_nonneg (mul_nonneg (by positivity) (rwpScale_nonneg displaySize image))

theorem rwpNewHeight_eq_floor (displaySize : ℕ × ℕ) (image : Img) :
    rwpNewHeight displaySize image =
      ⌊(image.height : ℚ) * rwpScale displaySize image⌋ := by
  unfold rwpNewHeight
  exact ratTrunc_of_nonneg (mul_nonneg (by positivity) (rwpScale_nonneg displaySize image))

theorem rwpNewWidth_le (displaySize : ℕ × ℕ) (image : Img) (hw : 0 < image.width) :
    rwpNewWidth displaySize image ≤ (displaySize.1 : ℤ) := by
  rw [rwpNewWidth_eq_floor]
  have hsw : (0 : ℚ) < (image.width : ℚ) := by exact_mod_cast hw
  have hle : (image.width : ℚ) * rwpScale displaySize image ≤ (displaySize.1 : ℚ) := by
    calc (image.width : ℚ) * rwpScale displaySize image
        ≤ (image.width : ℚ) * ((displaySize.1 : ℚ) / image.width) :=
          mul_le_mul_of_nonneg_left (min_le_left _ _) (by positivity)
      _ = (displaySize.1 : ℚ) := mul_div_cancel₀ _ (ne_of_gt hsw)
  calc ⌊(image.width : ℚ) * rwpScale displaySize image⌋
      ≤ ⌊(displaySize.1 : ℚ)⌋ := Int.floor_le_floor hle
    _ = (displaySize.1 : ℤ) := Int.floor_natCast _

theorem rwpNewHeight_le (displaySize : ℕ × ℕ) (image : Img) (hh : 0 < image.height) :
    rwpNewHeight displaySize image ≤ (displaySize.2 : ℤ) := by
  rw [rwpNewHeight_eq_floor]
  have hsh : (0 : ℚ) < (image.height : ℚ) := by exact_mod_cast hh
  have hle : (image.height : ℚ) * rwpScale displaySize image ≤ (displaySize.2 : ℚ) := by
    calc (image.height : ℚ) * rwpScale displaySize image
        ≤ (image.height : ℚ) * ((displaySize.2 : ℚ) / image.height) :=
          mul_le_mul_of_nonneg_left (min_le_right _ _) (by positivity)
      _ = (displaySize.2 : ℚ) := mul_div_cancel₀ _ (ne_of_gt hsh)
  calc ⌊(image.height : ℚ) * rwpScale displaySize image⌋
      ≤ ⌊(displaySize.2 : ℚ)⌋ := Int.floor_le_floor hle
    _ = (displaySize.2 : ℤ) := Int.floor_natCast _

/-- C7: `_resize_with_padding` scales by the single uniform factor
`min(target_width/img_width, target_height/img_height)` (new dimensions
are the truncations of the scaled dimensions, which fit inside the
target), centres the result with integer-halved offsets — so the
top/left side gets the smaller share of any odd leftover — fills
everything outside the pasted region with the constant mid-gray
`(128, 128, 128)`, and always returns a canvas of exactly the target
size. -/
theorem resizeWithPadding_spec (resample : Img → ℕ → ℕ → ℕ → ℕ → Color)
    (displaySize : ℕ × ℕ) (image : Img)
    (hw : 0 < image.width) (hh : 0 < image.height) :
    ((resizeWithPadding resample displaySize image).width = displaySize.1 ∧
     (resizeWithPadding resample displaySize image).height = displaySize.2) ∧
    (rwpNewWidth displaySize image =
        ⌊(image.width : ℚ) * min ((displaySize.1 : ℚ) / image.width)
          ((displaySize.2 : ℚ) / image.height)⌋ ∧
     rwpNewHeight displaySize image =
        ⌊(image.height : ℚ) * min ((displaySize.1 : ℚ) / image.width)
          ((displaySize.2 : ℚ) / image.height)⌋ ∧
     0 ≤ rwpNewWidth displaySize image ∧
     rwpNewWidth displaySize image ≤ (displaySize.1 : ℤ) ∧
     0 ≤ rwpNewHeight displaySize image ∧
     rwpNewHeight displaySize image ≤ (displaySize.2 : ℤ)) ∧
    (rwpXOffset displaySize image =
        ((displaySize.1 : ℤ) - rwpNewWidth displaySize image) / 2 ∧
     rwpYOffset displaySize image =
        ((displaySize.2 : ℤ) - rwpNewHeight displaySize image) / 2 ∧
     0 ≤ rwpXOffset displaySize image ∧
     rwpXOffset displaySize image ≤
       ((displaySize.1 : ℤ) - rwpNewWidth displaySize image) -
         rwpXOffset displaySize image ∧
     0 ≤ rwpYOffset displaySize image ∧
     rwpYOffset displaySize image ≤
       ((displaySize.2 : ℤ) - rwpNewHeight displaySize image) -
         rwpYOffset displaySize image) ∧
    (∀ x y : ℕ,
      ¬ (rwpXOffset displaySize image ≤ (x : ℤ) ∧
         (x : ℤ) < rwpXOffset displaySize image + rwpNewWidth displaySize image ∧
         rwpYOffset displaySize image ≤ (y : ℤ) ∧
         (y : ℤ) < rwpYOffset displaySize image + rwpNewHeight displaySize image) →
      (resizeWithPadding resample displaySize image).pix x y = (128, 128, 128)) ∧
    (∀ x y : ℕ,
      (rwpXOffset displaySize image ≤ (x : ℤ) ∧
       (x : ℤ) < rwpXOffset displaySize image + rwpNewWidth displaySize image ∧
       rwpYOffset displaySize image ≤ (y : ℤ) ∧
       (y : ℤ) < rwpYOffset displaySize image + rwpNewHeight displaySize image) →
      (resizeWithPadding resample displaySize image).pix x y =
        resample image (rwpNewWidth displaySize image).toNat
          (rwpNewHeight displaySize image).toNat
          ((x : ℤ) - rwpXOffset displaySize image).toNat
          ((y : ℤ) - rwpYOffset displaySize image).toNat) := by
  have hnw0 : 0 ≤ rwpNewWidth displaySize image := by
    rw [rwpNewWidth_eq_floor]
    exact Int.floor_nonneg.mpr (mul_nonneg (by positivity) (rwpScale_nonneg _ _))
  have hnh0 : 0 ≤ rwpNewHeight displaySize image := by
    rw [rwpNewHeight_eq_floor]
    exact Int.floor_nonneg.mpr (mul_nonneg (by positivity) (rwpScale_nonneg _ _))
  have hnw1 := rwpNewWidth_le displaySize image hw
  have hnh1 := rwpNewHeight_le displaySize image hh
  have hxo : rwpXOffset displaySize image =
      ((displaySize.1 : ℤ) - rwpNewWidth displaySize image) / 2 := by
    unfold rwpXOffset
    exact Int.fdiv_eq_ediv _ (by norm_num)
  have hyo : rwpYOffset displaySize image =
      ((displaySize.2 : ℤ) - rwpNewHeight displaySize image) / 2 := by
    unfold rwpYOffset
    exact Int.fdiv_eq_ediv _ (by norm_num)
  refine ⟨⟨rfl, rfl⟩, ⟨rwpNewWidth_eq_floor _ _, rwpNewHeight_eq_floor _ _,
    hnw0, hnw1, hnh0, hnh1⟩, ⟨hxo, hyo, ?_, ?_, ?_, ?_⟩, ?_, ?_⟩
  · rw [hxo]; omega
  · rw [hxo]; omega
  · rw [hyo]; omega
  · rw [hyo]; omega
  · intro x y hr
    simp only [resizeWithPadding]
    rw [if_neg hr]
  · intro x y hr
    simp only [resizeWithPadding]
    rw [if_pos hr]

/-- Witness for C7: the demo image scaled into a 1920×1080 display
canvas has exactly the target dimensions. -/
theorem resizeWithPadding_spec_witness :
    (resizeWithPadding (fun _ _ _ _ _ => (0, 0, 0)) (1920, 1080) demoImg).width = 1920 ∧
    (resizeWithPadding (fun _ _ _ _ _ => (0, 0, 0)) (1920, 1080) demoImg).height = 1080 :=
  (resizeWithPadding_spec (fun _ _ _ _ _ => (0, 0, 0)) (1920, 1080) demoImg
    (by decide) (by decide)).1

end CoordinateDrawer
